import Mathlib

/-!
Shallow embedding of the ACDSE core: `src/module_loader.py` (class
`ModuleLoader`) and `src/synergy_optimizer.py` (class `SynergyOptimizer`).

Python dicts are modelled as insertion-ordered association lists
(`List (String × α)` with `dictInsert` / `dictGet`).  The external
resolution mechanism (`importlib.import_module`, `importlib.reload`) is a
parameter: `imp : String → ImpResult H` for imports, `rel : H → Except
PyError H` for in-place reloads, with `truthy : H → Bool` giving Python
truthiness of a handle.  Exceptions are modelled as `Except` / `Option`
error results over the inductive `PyError`; the two aggregate kinds keep
their root cause (`raise ... from e`).
-/

namespace ACDSE

/-- Python exception kinds raised by the loader and the optimizer.  The
two aggregate kinds (`ModuleLoadError`, `SynergyAnalysisError`) carry the
root cause they wrap. -/
inductive PyError where
  | moduleImportError
  | moduleNotFoundError
  | moduleReloadError
  | moduleConnectionError
  | otherExc
  | moduleLoadError (cause : PyError)
  | synergyAnalysisError (cause : PyError)
deriving DecidableEq

/-- Outcome of `importlib.import_module` on a name: a module handle, an
`ImportError`, or any other exception. -/
inductive ImpResult (H : Type) where
  | ok (handle : H)
  | importErr
  | otherFail
deriving DecidableEq

/-- Python dict assignment `d[k] = v` on the association-list model: an
existing key keeps its position and gets the new value, a new key is
appended at the end (insertion order). -/
def dictInsert {α : Type} : List (String × α) → String → α → List (String × α)
  | [], k, v => [(k, v)]
  | (k', v') :: rest, k, v =>
    if k' = k then (k, v) :: rest else (k', v') :: dictInsert rest k v

/-- Python dict lookup `d[k]` (as an `Option`) on the association-list
model. -/
def dictGet {α : Type} : List (String × α) → String → Option α
  | [], _ => none
  | (k', v') :: rest, k => if k' = k then some v' else dictGet rest k

/-- State of a `ModuleLoader` instance: the `modules` dict and the
`module_paths` sequence fixed by `__init__`. -/
structure ModuleLoader (H : Type) where
  modules : List (String × H)
  module_paths : List String
deriving DecidableEq

/-- The default `module_paths` assigned in `ModuleLoader.__init__`. -/
def defaultModulePaths : List String := ["perception", "reasoning", "memory"]

/-- Embeds `ModuleLoader._import_module`: calls the import mechanism
`imp`; an `ImportError` is caught and re-raised as `ModuleImportError`,
any other exception propagates unchanged. -/
def _import_module {H : Type} (imp : String → ImpResult H) (name : String) :
    Except PyError H :=
  match imp name with
  | .ok h => .ok h
  | .importErr => .error .moduleImportError
  | .otherFail => .error .otherExc

/-- The `try` body of `ModuleLoader.load_modules`: processes the paths in
order, storing each truthy handle into `modules`; a falsy handle raises
`ModuleNotFoundError`.  Returns the dict as mutated so far together with
the first exception, if any. -/
def loadLoop {H : Type} (imp : String → ImpResult H) (truthy : H → Bool) :
    List String → List (String × H) → List (String × H) × Option PyError
  | [], modules => (modules, none)
  | path :: rest, modules =>
    match _import_module imp path with
    | .error e => (modules, some e)
    | .ok m =>
      if truthy m then loadLoop imp truthy rest (dictInsert modules path m)
      else (modules, some .moduleNotFoundError)

/-- Embeds `ModuleLoader.load_modules`: on success returns the full
modules dict; any exception in the loop is re-raised as
`ModuleLoadError` wrapping the cause, while the partially filled dict is
retained in the state. -/
def load_modules {H : Type} (imp : String → ImpResult H) (truthy : H → Bool)
    (st : ModuleLoader H) : ModuleLoader H × Except PyError (List (String × H)) :=
  match loadLoop imp truthy st.module_paths st.modules with
  | (m, none) => ({ st with modules := m }, .ok m)
  | (m, some e) => ({ st with modules := m }, .error (.moduleLoadError e))

/-- Embeds `ModuleLoader.reload_module`: a name absent from `modules`
raises `ModuleNotFoundError` before any resolution is attempted; for a
present name, `importlib.reload` (the abstract `rel`) refreshes the
stored handle in place, and a reload exception is re-raised as
`ModuleReloadError` leaving the dict untouched. -/
def reload_module {H : Type} (rel : H → Except PyError H) (st : ModuleLoader H)
    (module_name : String) : ModuleLoader H × Option PyError :=
  match dictGet st.modules module_name with
  | none => (st, some .moduleNotFoundError)
  | some h =>
    match rel h with
    | .ok h2 => ({ st with modules := dictInsert st.modules module_name h2 }, none)
    | .error _ => (st, some .moduleReloadError)

/-- A name resolves successfully inside `load_modules` when the import
mechanism returns a handle and the handle is truthy. -/
def resolveOk {H : Type} (imp : String → ImpResult H) (truthy : H → Bool)
    (name : String) : Bool :=
  match imp name with
  | .ok h => truthy h
  | _ => false

/-- Python `abs` on an integer. -/
def pyAbs (x : Int) : Int := if x < 0 then -x else x

/-- Embeds the body of `SynergyOptimizer._evaluate_connection`:
`abs(1 - (len(module1) + len(module2)) % 3)`. -/
def _evaluate_connection (module1 module2 : String) : Int :=
  pyAbs (1 - ((module1.length : Int) + (module2.length : Int)) % 3)

/-- The evaluator installed in `find_synergies`: the `try/except` wrapper
of `_evaluate_connection` never reaches its `except` branch because the
formula is total on strings, so it always returns the score. -/
def evalDefault (module1 module2 : String) : Except PyError Int :=
  Except.ok (_evaluate_connection module1 module2)

/-- Inner loop of `SynergyOptimizer.find_synergies` for a fixed
`module1`: scans the candidates, skipping `module1` itself, and keeps
the strictly best score seen so far (`score > max_score`), threading the
running `max_score` and `best_module`. -/
def findLoopInner (ev : String → String → Except PyError Int) (module1 : String) :
    List String → Int → String → Except PyError (Int × String)
  | [], maxScore, best => .ok (maxScore, best)
  | module2 :: rest, maxScore, best =>
    if module1 ≠ module2 then
      match ev module1 module2 with
      | .error e => .error e
      | .ok score =>
        if maxScore < score then findLoopInner ev module1 rest score module2
        else findLoopInner ev module1 rest maxScore best
    else findLoopInner ev module1 rest maxScore best

/-- Outer loop of `SynergyOptimizer.find_synergies`: for each `module1`
the inner scan starts from `max_score = -1` and `best_module = ""`; the
entry is recorded only when the final `best_module` is truthy
(non-empty). -/
def findLoopOuter (ev : String → String → Except PyError Int)
    (names : List String) :
    List String → List (String × String) → Except PyError (List (String × String))
  | [], syn => .ok syn
  | module1 :: rest, syn =>
    match findLoopInner ev module1 names (-1) "" with
    | .error e => .error e
    | .ok (_, best) =>
      if best ≠ "" then findLoopOuter ev names rest (dictInsert syn module1 best)
      else findLoopOuter ev names rest syn

/-- Embeds `SynergyOptimizer.find_synergies`: the full pairwise scan over
the module names (dict iteration order); any exception escaping the scan
is caught and re-raised as `SynergyAnalysisError` wrapping the cause. -/
def find_synergies (ev : String → String → Except PyError Int)
    (modules : List String) : Except PyError (List (String × String)) :=
  match findLoopOuter ev modules modules [] with
  | .ok syn => .ok syn
  | .error e => .error (.synergyAnalysisError e)

/-- Concrete import mechanism used in witnesses: every name resolves to
the handle `1` except `"memory"`, which raises `ImportError`. -/
def impW : String → ImpResult Nat := fun n =>
  if n = "memory" then .importErr else .ok 1

/-- Concrete truthiness used in witnesses: a `Nat` handle is truthy when
non-zero, as in Python. -/
def truthyW : Nat → Bool := fun h => h != 0

/-- Concrete reload mechanism used in witnesses: reload succeeds and
returns the same handle. -/
def relW : Nat → Except PyError Nat := fun h => Except.ok h

/-- Concrete reload mechanism used in witnesses: reload always raises. -/
def relFailW : Nat → Except PyError Nat := fun _ => Except.error PyError.otherExc

/-- Concrete registry state used in witnesses: one loaded module. -/
def stW : ModuleLoader Nat := ⟨[("perception", 1)], defaultModulePaths⟩

/-- Concrete pair evaluator used in witnesses: every evaluation raises
`ModuleConnectionError`, the kind `_evaluate_connection` uses for an
evaluation failure. -/
def evFailW : String → String → Except PyError Int :=
  fun _ _ => Except.error PyError.moduleConnectionError

/-- A key is absent from the dict exactly when lookup returns `none`. -/
theorem dictGet_eq_none_iff {α : Type} (d : List (String × α)) (k : String) :
    dictGet d k = none ↔ k ∉ d.map Prod.fst := by
  induction d with
  | nil => simp [dictGet]
  | cons p rest ih =>
    obtain ⟨k', v'⟩ := p
    simp only [dictGet, List.map_cons, List.mem_cons]
    by_cases h : k' = k
    · subst h; simp
    · simp [h, ih, Ne.symm h]

/-- Inserting a fresh key appends the binding at the end. -/
theorem dictInsert_eq_append {α : Type} (d : List (String × α)) (k : String) (v : α)
    (h : dictGet d k = none) : dictInsert d k v = d ++ [(k, v)] := by
  induction d with
  | nil => rfl
  | cons p rest ih =>
    obtain ⟨k', v'⟩ := p
    simp only [dictGet] at h
    by_cases hk : k' = k
    · simp [hk] at h
    · simp only [dictInsert, if_neg hk, List.cons_append, List.cons.injEq, true_and]
      exact ih (by simpa [hk] using h)

/-- Appending a binding for a different key does not change a lookup. -/
theorem dictGet_append_single {α : Type} (d : List (String × α)) (k n : String)
    (v : α) (h : k ≠ n) : dictGet (d ++ [(k, v)]) n = dictGet d n := by
  induction d with
  | nil => simp [dictGet, h]
  | cons p rest ih =>
    obtain ⟨k', v'⟩ := p
    simp only [List.cons_append, dictGet]
    split
    · rfl
    · exact ih

/-- A member of `dictInsert d k v` is a member of `d` or the new binding. -/
theorem mem_dictInsert {α : Type} (d : List (String × α)) (k : String) (v : α)
    (p : String × α) (h : p ∈ dictInsert d k v) : p ∈ d ∨ p = (k, v) := by
  induction d with
  | nil => simpa [dictInsert] using h
  | cons q rest ih =>
    obtain ⟨k', v'⟩ := q
    simp only [dictInsert] at h
    split at h
    · rcases List.mem_cons.mp h with h1 | h1
      · right; exact h1
      · left; exact List.mem_cons_of_mem _ h1
    · rcases List.mem_cons.mp h with h1 | h1
      · left; rw [h1]; exact List.mem_cons_self _ _
      · rcases ih h1 with h2 | h2
        · left; exact List.mem_cons_of_mem _ h2
        · right; exact h2

/-- A successful lookup means the key is among the dict's keys. -/
theorem mem_of_dictGet_some {α : Type} {d : List (String × α)} {k : String}
    {v : α} (h : dictGet d k = some v) : k ∈ d.map Prod.fst := by
  by_contra hk
  rw [(dictGet_eq_none_iff d k).mpr hk] at h
  exact Option.noConfusion h

/-- A list each of whose elements satisfies the predicate is its own
`takeWhile`. -/
theorem takeWhile_eq_of_all {p : String → Bool} (l : List String)
    (h : l.all p = true) : l.takeWhile p = l := by
  induction l with
  | nil => rfl
  | cons a t ih =>
    simp only [List.all_cons, Bool.and_eq_true] at h
    simp [List.takeWhile_cons, h.1, ih h.2]

/-- Loop invariant of `load_modules`: starting from a dict whose keys are
disjoint from the distinct names still to process, the loop extends the
key sequence by exactly the prefix of names that resolve successfully,
and finishes without an exception exactly when every name resolves. -/
theorem loadLoop_keys {H : Type} (imp : String → ImpResult H) (truthy : H → Bool)
    (names : List String) :
    ∀ st : List (String × H),
      (∀ n ∈ names, dictGet st n = none) → names.Nodup →
      ((loadLoop imp truthy names st).1.map Prod.fst
          = st.map Prod.fst ++ names.takeWhile (resolveOk imp truthy))
        ∧ ((loadLoop imp truthy names st).2 = none
            ↔ names.all (resolveOk imp truthy) = true) := by
  induction names with
  | nil => intro st _ _; simp [loadLoop]
  | cons path rest ih =>
    intro st hfresh hnd
    have hpathrest : path ∉ rest := (List.nodup_cons.mp hnd).1
    rcases himp : imp path with m | _ | _
    · by_cases ht : truthy m
      · have hres : resolveOk imp truthy path = true := by
          simp [resolveOk, himp, ht]
        have hins : dictInsert st path m = st ++ [(path, m)] :=
          dictInsert_eq_append st path m (hfresh path (List.mem_cons_self _ _))
        have hfresh2 : ∀ n ∈ rest, dictGet (dictInsert st path m) n = none := by
          intro n hn
          rw [hins, dictGet_append_single st path n m
            (fun hpn => hpathrest (hpn ▸ hn))]
          exact hfresh n (List.mem_cons_of_mem _ hn)
        have hrec := ih (dictInsert st path m) hfresh2 (List.nodup_cons.mp hnd).2
        have hstep : loadLoop imp truthy (path :: rest) st
            = loadLoop imp truthy rest (dictInsert st path m) := by
          simp [loadLoop, _import_module, himp, ht]
        rw [hstep]
        constructor
        · rw [hrec.1, hins]
          simp [List.takeWhile_cons, hres]
        · rw [hrec.2]
          simp [List.all_cons, hres]
      · have hres : resolveOk imp truthy path = false := by
          simp [resolveOk, himp]
          simpa using ht
        have hstep : loadLoop imp truthy (path :: rest) st
            = (st, some PyError.moduleNotFoundError) := by
          simp [loadLoop, _import_module, himp, ht]
        rw [hstep]
        constructor
        · simp [List.takeWhile_cons, hres]
        · simp [List.all_cons, hres]
    · have hres : resolveOk imp truthy path = false := by
        simp [resolveOk, himp]
      have hstep : loadLoop imp truthy (path :: rest) st
          = (st, some PyError.moduleImportError) := by
        simp [loadLoop, _import_module, himp]
      rw [hstep]
      constructor
      · simp [List.takeWhile_cons, hres]
      · simp [List.all_cons, hres]
    · have hres : resolveOk imp truthy path = false := by
        simp [resolveOk, himp]
      have hstep : loadLoop imp truthy (path :: rest) st
          = (st, some PyError.otherExc) := by
        simp [loadLoop, _import_module, himp]
      rw [hstep]
      constructor
      · simp [List.takeWhile_cons, hres]
      · simp [List.all_cons, hres]

/-- C1: starting from an empty registry, over any non-empty ordered
sequence of distinct module names configured at construction,
`load_modules` either returns a dict whose keys are exactly those names
(and stores it in the registry), or raises `ModuleLoadError`
(BatchLoadFailure) and leaves the registry's dict containing exactly the
prefix of names that resolved successfully before the first failure. -/
theorem load_all_batch_spec {H : Type} (imp : String → ImpResult H)
    (truthy : H → Bool) (names : List String) (hne : names ≠ [])
    (hnd : names.Nodup) :
    (∃ m, (load_modules imp truthy ⟨[], names⟩).2 = Except.ok m
        ∧ m.map Prod.fst = names
        ∧ (load_modules imp truthy ⟨[], names⟩).1.modules = m)
    ∨ ((∃ e, (load_modules imp truthy ⟨[], names⟩).2
            = Except.error (PyError.moduleLoadError e))
        ∧ (load_modules imp truthy ⟨[], names⟩).1.modules.map Prod.fst
            = names.takeWhile (resolveOk imp truthy)) := by
  have hkeys := loadLoop_keys imp truthy names [] (fun n _ => rfl) hnd
  rcases hl : loadLoop imp truthy names ([] : List (String × H)) with ⟨m, o⟩
  rw [hl] at hkeys
  cases o with
  | none =>
    left
    have hall : names.all (resolveOk imp truthy) = true := hkeys.2.mp rfl
    refine ⟨m, ?_, ?_, ?_⟩
    · simp [load_modules, hl]
    · have h1 := hkeys.1
      rw [takeWhile_eq_of_all names hall] at h1
      simpa using h1
    · simp [load_modules, hl]
  | some e =>
    right
    constructor
    · exact ⟨e, by simp [load_modules, hl]⟩
    · have h1 := hkeys.1
      simp only [List.map_nil, List.nil_append] at h1
      simpa [load_modules, hl] using h1

/-- Witness for C1: the default path list with an import mechanism that
raises `ImportError` on `"memory"`. -/
theorem load_all_batch_spec_witness :
    defaultModulePaths ≠ [] ∧ defaultModulePaths.Nodup ∧
      ((∃ m, (load_modules impW truthyW ⟨[], defaultModulePaths⟩).2 = Except.ok m
          ∧ m.map Prod.fst = defaultModulePaths
          ∧ (load_modules impW truthyW ⟨[], defaultModulePaths⟩).1.modules = m)
      ∨ ((∃ e, (load_modules impW truthyW ⟨[], defaultModulePaths⟩).2
              = Except.error (PyError.moduleLoadError e))
          ∧ (load_modules impW truthyW ⟨[], defaultModulePaths⟩).1.modules.map
              Prod.fst
              = defaultModulePaths.takeWhile (resolveOk impW truthyW))) :=
  ⟨by decide, by decide,
    load_all_batch_spec impW truthyW defaultModulePaths (by decide) (by decide)⟩

/-- C3: for a name absent from the registry's dict, `reload_module`
raises `ModuleNotFoundError` (NotLoaded) with the state unchanged, and
never consults the resolution mechanism: the outcome is identical for
any two reload mechanisms. -/
theorem reload_absent_not_loaded {H : Type} (rel rel2 : H → Except PyError H)
    (st : ModuleLoader H) (name : String)
    (h : name ∉ st.modules.map Prod.fst) :
    reload_module rel st name = (st, some PyError.moduleNotFoundError)
    ∧ reload_module rel st name = reload_module rel2 st name := by
  have hg : dictGet st.modules name = none := (dictGet_eq_none_iff _ _).mpr h
  constructor
  · simp [reload_module, hg]
  · simp [reload_module, hg]

/-- Witness for C3: reloading `"memory"` when only `"perception"` is
loaded. -/
theorem reload_absent_not_loaded_witness :
    "memory" ∉ stW.modules.map Prod.fst
    ∧ (reload_module relW stW "memory" = (stW, some PyError.moduleNotFoundError)
        ∧ reload_module relW stW "memory" = reload_module relFailW stW "memory") :=
  ⟨by decide, reload_absent_not_loaded relW relFailW stW "memory" (by decide)⟩

/-- C9: for a loaded name whose re-resolution raises, `reload_module`
raises `ModuleReloadError` (ReloadFailure); the name is still a key of
the registry's dict afterwards, and the entry of every other name is
unchanged. -/
theorem reload_failure_frame {H : Type} (rel : H → Except PyError H)
    (st : ModuleLoader H) (name : String) (h : H) (e : PyError)
    (hget : dictGet st.modules name = some h)
    (hfail : rel h = Except.error e) :
    (reload_module rel st name).2 = some PyError.moduleReloadError
    ∧ name ∈ (reload_module rel st name).1.modules.map Prod.fst
    ∧ ∀ k, k ≠ name →
        dictGet (reload_module rel st name).1.modules k
          = dictGet st.modules k := by
  have hr : reload_module rel st name = (st, some PyError.moduleReloadError) := by
    simp [reload_module, hget, hfail]
  rw [hr]
  exact ⟨rfl, mem_of_dictGet_some hget, fun _ _ => rfl⟩

/-- Witness for C9: reloading `"perception"` with a mechanism that always
raises. -/
theorem reload_failure_frame_witness :
    dictGet stW.modules "perception" = some 1
    ∧ (reload_module relFailW stW "perception").2 = some PyError.moduleReloadError
    ∧ "perception" ∈ (reload_module relFailW stW "perception").1.modules.map
        Prod.fst
    ∧ dictGet (reload_module relFailW stW "perception").1.modules "reasoning"
        = dictGet stW.modules "reasoning" := by
  have h := reload_failure_frame relFailW stW "perception" 1 PyError.otherExc rfl rfl
  exact ⟨rfl, h.1, h.2.1, h.2.2 "reasoning" (by decide)⟩

/-- Python integer `abs` agrees with the mathematical absolute value. -/
theorem pyAbs_eq_abs (x : Int) : pyAbs x = |x| := by
  unfold pyAbs
  split
  · rename_i h
    exact (abs_of_neg h).symm
  · rename_i h
    exact (abs_of_nonneg (not_lt.mp h)).symm

/-- The default connection score is always 0 or 1. -/
theorem evalConn_cases (module1 module2 : String) :
    _evaluate_connection module1 module2 = 0
    ∨ _evaluate_connection module1 module2 = 1 := by
  unfold _evaluate_connection pyAbs
  split <;> omega

/-- C4: `_evaluate_connection` computes the default formula
`|1 − ((len(name1) + len(name2)) mod 3)|`, and in particular scores the
pair ("ab","cd") as 0 and the pair ("a","bb") as 1. -/
theorem evaluate_pair_default_formula (name1 name2 : String) :
    _evaluate_connection name1 name2
      = |1 - (((name1.length : Int) + (name2.length : Int)) % 3)|
    ∧ _evaluate_connection "ab" "cd" = 0
    ∧ _evaluate_connection "a" "bb" = 1 :=
  ⟨pyAbs_eq_abs _, by decide, by decide⟩

/-- C6: every score of `_evaluate_connection` is in the discrete set
{0, 1}, hence lies in [0, 1] and is strictly greater than the sentinel
−1 used as the initial running maximum in `find_synergies`. -/
theorem evaluate_pair_range (name1 name2 : String) :
    (_evaluate_connection name1 name2 = 0 ∨ _evaluate_connection name1 name2 = 1)
    ∧ 0 ≤ _evaluate_connection name1 name2
    ∧ _evaluate_connection name1 name2 ≤ 1
    ∧ (-1 : Int) < _evaluate_connection name1 name2 := by
  rcases evalConn_cases name1 name2 with h | h <;> rw [h] <;> norm_num

/-- C7: `find_synergies` returns the empty mapping over an empty module
set and over a singleton module set, for any evaluator. -/
theorem find_best_partners_empty_and_singleton
    (ev : String → String → Except PyError Int) (m : String) :
    find_synergies ev [] = Except.ok []
    ∧ find_synergies ev [m] = Except.ok [] := by
  refine ⟨rfl, ?_⟩
  simp [find_synergies, findLoopOuter, findLoopInner]

/-- C5: over the module names "x", "yy", "zzz" in that order, the
returned best partners are "x"↦"yy", "yy"↦"x", "zzz"↦"yy". -/
theorem find_best_partners_xyz :
    find_synergies evalDefault ["x", "yy", "zzz"]
      = Except.ok [("x", "yy"), ("yy", "x"), ("zzz", "yy")] := rfl

/-- C2: any error produced by the pairwise scan makes `find_synergies`
raise `SynergyAnalysisError` (OptimizationFailure) wrapping that root
cause, and every error `find_synergies` raises is of that aggregate
kind — the raw inner kind never reaches the caller. -/
theorem find_synergies_error_wrapping (ev : String → String → Except PyError Int)
    (modules : List String) :
    (∀ e0, findLoopOuter ev modules modules [] = Except.error e0 →
        find_synergies ev modules
          = Except.error (PyError.synergyAnalysisError e0))
    ∧ (∀ e, find_synergies ev modules = Except.error e →
        ∃ e0, e = PyError.synergyAnalysisError e0) := by
  constructor
  · intro e0 h
    simp [find_synergies, h]
  · intro e h
    unfold find_synergies at h
    split at h
    · simp at h
    · rename_i e0 ho
      injection h with h2
      exact ⟨e0, h2.symm⟩

/-- Witness for C2: an evaluator that always raises
`ModuleConnectionError` over two modules. -/
theorem find_synergies_error_wrapping_witness :
    find_synergies evFailW ["a", "bb"]
      = Except.error
          (PyError.synergyAnalysisError PyError.moduleConnectionError) :=
  (find_synergies_error_wrapping evFailW ["a", "bb"]).1
    PyError.moduleConnectionError rfl

/-- The best candidate returned by the inner scan is either the initial
one or a scanned name different from `module1`. -/
theorem findLoopInner_best_mem (ev : String → String → Except PyError Int)
    (module1 : String) :
    ∀ (cands : List String) (mx : Int) (b : String) (mx' : Int) (b' : String),
      findLoopInner ev module1 cands mx b = Except.ok (mx', b') →
      b' = b ∨ (b' ∈ cands ∧ b' ≠ module1) := by
  intro cands
  induction cands with
  | nil =>
    intro mx b mx' b' h
    simp only [findLoopInner, Except.ok.injEq, Prod.mk.injEq] at h
    exact Or.inl h.2.symm
  | cons c rest ih =>
    intro mx b mx' b' h
    simp only [findLoopInner] at h
    split at h
    · rename_i hc
      split at h
      · simp at h
      · rename_i score hev
        split at h
        · rcases ih score c mx' b' h with h1 | h1
          · exact Or.inr ⟨h1 ▸ List.mem_cons_self _ _, h1 ▸ Ne.symm hc⟩
          · exact Or.inr ⟨List.mem_cons_of_mem _ h1.1, h1.2⟩
        · rcases ih mx b mx' b' h with h1 | h1
          · exact Or.inl h1
          · exact Or.inr ⟨List.mem_cons_of_mem _ h1.1, h1.2⟩
    · rcases ih mx b mx' b' h with h1 | h1
      · exact Or.inl h1
      · exact Or.inr ⟨List.mem_cons_of_mem _ h1.1, h1.2⟩

/-- Every entry the outer loop adds maps a module to a different module,
so irreflexivity of the accumulator is preserved. -/
theorem findLoopOuter_ok_entries (ev : String → String → Except PyError Int)
    (names : List String) :
    ∀ (ms : List String) (syn syn' : List (String × String)),
      findLoopOuter ev names ms syn = Except.ok syn' →
      (∀ p ∈ syn, p.2 ≠ p.1) → ∀ p ∈ syn', p.2 ≠ p.1 := by
  intro ms
  induction ms with
  | nil =>
    intro syn syn' h hsyn
    simp only [findLoopOuter, Except.ok.injEq] at h
    exact h ▸ hsyn
  | cons m1 rest ih =>
    intro syn syn' h hsyn
    simp only [findLoopOuter] at h
    split at h
    · simp at h
    · rename_i mx' b' hin
      split at h
      · rename_i hb
        refine ih (dictInsert syn m1 b') syn' h ?_
        intro p hp
        rcases mem_dictInsert syn m1 b' p hp with h1 | h1
        · exact hsyn p h1
        · rcases findLoopInner_best_mem ev m1 names (-1) "" mx' b' hin with
            h2 | h2
          · exact absurd h2 hb
          · rw [h1]
            exact h2.2
      · exact ih syn syn' h hsyn

/-- C8: the mapping returned by `find_synergies` is irreflexive — no
module is its own best partner. -/
theorem find_best_partners_irreflexive
    (ev : String → String → Except PyError Int) (modules : List String)
    (syn : List (String × String))
    (h : find_synergies ev modules = Except.ok syn) :
    ∀ p ∈ syn, p.2 ≠ p.1 := by
  unfold find_synergies at h
  rcases ho : findLoopOuter ev modules modules [] with e | s
  · rw [ho] at h
    exact absurd h (by simp)
  · rw [ho] at h
    have hs : s = syn := by simpa using h
    exact findLoopOuter_ok_entries ev modules modules [] syn (hs ▸ ho)
      (by intro p hp; simp at hp)

/-- Witness for C8: the concrete run over "x", "yy", "zzz" and its first
entry. -/
theorem find_best_partners_irreflexive_witness :
    find_synergies evalDefault ["x", "yy", "zzz"]
      = Except.ok [("x", "yy"), ("yy", "x"), ("zzz", "yy")]
    ∧ ("x", "yy").2 ≠ ("x", "yy").1 :=
  ⟨rfl,
    find_best_partners_irreflexive evalDefault ["x", "yy", "zzz"]
      [("x", "yy"), ("yy", "x"), ("zzz", "yy")] rfl ("x", "yy") (by decide)⟩

/-- The inner scan with the total default evaluator never raises. -/
theorem findLoopInner_default_total (module1 : String) :
    ∀ (cands : List String) (mx : Int) (b : String),
      ∃ mx' b', findLoopInner evalDefault module1 cands mx b
        = Except.ok (mx', b') := by
  intro cands
  induction cands with
  | nil => intro mx b; exact ⟨mx, b, rfl⟩
  | cons c rest ih =>
    intro mx b
    by_cases hc : module1 ≠ c
    · by_cases hlt : mx < _evaluate_connection module1 c
      · obtain ⟨mx', b', hrec⟩ := ih (_evaluate_connection module1 c) c
        exact ⟨mx', b', by simp [findLoopInner, evalDefault, hc, hlt, hrec]⟩
      · obtain ⟨mx', b', hrec⟩ := ih mx b
        exact ⟨mx', b', by simp [findLoopInner, evalDefault, hc, hlt, hrec]⟩
    · obtain ⟨mx', b', hrec⟩ := ih mx b
      exact ⟨mx', b', by simp [findLoopInner, hc, hrec]⟩

/-- If the running maximum is still the sentinel −1 and some candidate
differs from `module1`, the inner scan with the default evaluator ends
with a best partner that is a scanned name different from `module1`. -/
theorem findLoopInner_default_finds (module1 : String) :
    ∀ (cands : List String) (mx : Int) (b : String),
      mx < 0 → (∃ m2 ∈ cands, m2 ≠ module1) →
      ∃ mx' b', findLoopInner evalDefault module1 cands mx b
          = Except.ok (mx', b') ∧ b' ∈ cands ∧ b' ≠ module1 := by
  intro cands
  induction cands with
  | nil =>
    intro mx b _ hex
    simp at hex
  | cons c rest ih =>
    intro mx b hmx hex
    by_cases hc : module1 ≠ c
    · have hscore : mx < _evaluate_connection module1 c := by
        rcases evalConn_cases module1 c with h | h <;> omega
      obtain ⟨mx', b', hrec⟩ :=
        findLoopInner_default_total module1 rest
          (_evaluate_connection module1 c) c
      refine ⟨mx', b', ?_, ?_, ?_⟩
      · simp [findLoopInner, evalDefault, hc, hscore, hrec]
      · rcases findLoopInner_best_mem evalDefault module1 rest
            (_evaluate_connection module1 c) c mx' b' hrec with h1 | h1
        · exact h1 ▸ List.mem_cons_self _ _
        · exact List.mem_cons_of_mem _ h1.1
      · rcases findLoopInner_best_mem evalDefault module1 rest
            (_evaluate_connection module1 c) c mx' b' hrec with h1 | h1
        · exact h1 ▸ Ne.symm hc
        · exact h1.2
    · have hcc : module1 = c := not_ne_iff.mp hc
      have hex2 : ∃ m2 ∈ rest, m2 ≠ module1 := by
        rcases hex with ⟨m2, hm2, hne2⟩
        rcases List.mem_cons.mp hm2 with h1 | h1
        · exact absurd (h1.trans hcc.symm) hne2
        · exact ⟨m2, h1, hne2⟩
      obtain ⟨mx', b', hrec, hmem, hbne⟩ := ih mx b hmx hex2
      exact ⟨mx', b', by simp [findLoopInner, hc, hrec],
        List.mem_cons_of_mem _ hmem, hbne⟩

/-- Outer loop of the default scan: when every name is non-empty, every
pending module has a distinct peer among the names, and the pending
modules are distinct and not yet recorded, the loop succeeds and appends
exactly the pending modules to the accumulator's keys. -/
theorem findLoopOuter_default_keys (names : List String)
    (hnames : ∀ m2 ∈ names, m2 ≠ "") :
    ∀ (ms : List String) (syn : List (String × String)),
      (∀ m1 ∈ ms, ∃ m2 ∈ names, m2 ≠ m1) →
      (∀ m1 ∈ ms, dictGet syn m1 = none) →
      ms.Nodup →
      ∃ syn', findLoopOuter evalDefault names ms syn = Except.ok syn'
        ∧ syn'.map Prod.fst = syn.map Prod.fst ++ ms := by
  intro ms
  induction ms with
  | nil => intro syn _ _ _; exact ⟨syn, rfl, by simp⟩
  | cons m1 rest ih =>
    intro syn hpart hfresh hnd
    obtain ⟨mx', b', hin, hbmem, hbne⟩ :=
      findLoopInner_default_finds m1 names (-1) "" (by norm_num)
        (hpart m1 (List.mem_cons_self _ _))
    have hbne2 : b' ≠ "" := hnames b' hbmem
    have hins : dictInsert syn m1 b' = syn ++ [(m1, b')] :=
      dictInsert_eq_append syn m1 b' (hfresh m1 (List.mem_cons_self _ _))
    have hfresh2 : ∀ m ∈ rest, dictGet (dictInsert syn m1 b') m = none := by
      intro m hm
      rw [hins, dictGet_append_single syn m1 m b'
        (fun hmm => (List.nodup_cons.mp hnd).1 (hmm ▸ hm))]
      exact hfresh m (List.mem_cons_of_mem _ hm)
    obtain ⟨syn', hrec, hkeys⟩ := ih (dictInsert syn m1 b')
      (fun m hm => hpart m (List.mem_cons_of_mem _ hm)) hfresh2
      (List.nodup_cons.mp hnd).2
    refine ⟨syn', ?_, ?_⟩
    · simp [findLoopOuter, hin, hbne2, hrec]
    · rw [hkeys, hins]
      simp

/-- C10: over any module set of size at least 2 whose names are all
non-empty, `find_synergies` with the default evaluator succeeds and the
returned mapping's keys are exactly the whole module set. -/
theorem find_best_partners_covers_all (modules : List String)
    (hlen : 2 ≤ modules.length) (hnd : modules.Nodup)
    (hne : ∀ m ∈ modules, m ≠ "") :
    ∃ syn, find_synergies evalDefault modules = Except.ok syn
      ∧ syn.map Prod.fst = modules := by
  have hpart : ∀ m1 ∈ modules, ∃ m2 ∈ modules, m2 ≠ m1 := by
    rcases modules with _ | ⟨a, _ | ⟨b, t⟩⟩
    · simp at hlen
    · simp at hlen
    · have hab : a ≠ b := by
        intro h
        apply (List.nodup_cons.mp hnd).1
        rw [h]
        exact List.mem_cons_self _ _
      intro m1 _
      by_cases hm : m1 = a
      · refine ⟨b, List.mem_cons_of_mem _ (List.mem_cons_self _ _), ?_⟩
        rw [hm]
        exact Ne.symm hab
      · exact ⟨a, List.mem_cons_self _ _, fun h => hm h.symm⟩
  obtain ⟨syn', houter, hkeys⟩ :=
    findLoopOuter_default_keys modules hne modules [] hpart (fun m _ => rfl) hnd
  refine ⟨syn', ?_, by simpa using hkeys⟩
  simp [find_synergies, houter]

/-- Witness for C10 over the concrete module set "x", "yy", "zzz". -/
theorem find_best_partners_covers_all_witness :
    2 ≤ (["x", "yy", "zzz"] : List String).length
    ∧ (["x", "yy", "zzz"] : List String).Nodup
    ∧ ∃ syn, find_synergies evalDefault ["x", "yy", "zzz"] = Except.ok syn
        ∧ syn.map Prod.fst = ["x", "yy", "zzz"] :=
  ⟨by decide, by decide,
    find_best_partners_covers_all ["x", "yy", "zzz"] (by decide) (by decide)
      (by decide)⟩

end ACDSE
